import Mathlib

/-!
Verification development for the Corten-FontSystem repository.

Shallow embedding of the core data model and operations of the font system:
the font registry and its matching algorithm, the OpenType container parser
and the fvar/avar table decoders, the glyph cache with its dual-bound
eviction protocol, the shaping cache front of the text shaper, and the
paragraph layout / justification engine.

Conventions used throughout the embedding:
- Rust f32 values are modelled as exact rationals (Rat); none of the
  properties settled here depends on IEEE-754 rounding of the arithmetic
  performed by the code paths involved.
- Rust usize / u32 / u16 values are modelled as Nat, with explicit
  saturating subtraction where the source uses saturating_sub, and an
  explicit truncating float-to-integer cast where the source uses an
  `as` cast.
- Byte buffers are List Nat (one Nat per byte).
- Strings are List Char.  Rust String::to_lowercase is modelled by
  Char.toLower; the matching specification folds ASCII only, and every
  concrete input used below is ASCII, where the two coincide.
- External collaborators that are not part of this repository
  (ttf-parser, HarfBuzz, FreeType, the lru crate hash map order, the
  unicode-linebreak crate) are passed in as explicit function or list
  parameters, so theorems quantify over all of their possible behaviours.
- Error payload strings (format! messages) are elided from error types:
  every claim about errors concerns only the error kind.
-/

namespace Corten

/-! ## font_types: shared value types (font_types/src/types.rs) -/

namespace FontTypes

/-- Font weight variants with their numeric discriminants (100..900). -/
inductive FontWeight
  | Thin | ExtraLight | Light | Regular | Medium
  | SemiBold | Bold | ExtraBold | Black
deriving DecidableEq, Repr

/-- Numeric value of a weight, as produced by the Rust discriminant cast. -/
def FontWeight.toNum : FontWeight → Int
  | .Thin => 100
  | .ExtraLight => 200
  | .Light => 300
  | .Regular => 400
  | .Medium => 500
  | .SemiBold => 600
  | .Bold => 700
  | .ExtraBold => 800
  | .Black => 900

/-- Font style: Normal, Italic, or Oblique with an angle. -/
inductive FontStyle
  | Normal | Italic
  | Oblique (angle : Rat)
deriving DecidableEq, Repr

/-- Font stretch variants with numeric discriminants (50..200). -/
inductive FontStretch
  | UltraCondensed | ExtraCondensed | Condensed | SemiCondensed | Normal
  | SemiExpanded | Expanded | ExtraExpanded | UltraExpanded
deriving DecidableEq, Repr

/-- Numeric value of a stretch, as produced by the Rust discriminant cast. -/
def FontStretch.toNum : FontStretch → Int
  | .UltraCondensed => 50
  | .ExtraCondensed => 62
  | .Condensed => 75
  | .SemiCondensed => 87
  | .Normal => 100
  | .SemiExpanded => 112
  | .Expanded => 125
  | .ExtraExpanded => 150
  | .UltraExpanded => 200

/-- 2D point (f32 coordinates modelled as Rat). -/
structure Point where
  x : Rat
  y : Rat
deriving DecidableEq, Repr

/-- 2D vector (f32 components modelled as Rat). -/
structure Vec2 where
  x : Rat
  y : Rat
deriving DecidableEq, Repr

/-- Positioned glyph as produced by the shaper and consumed by layout. -/
structure PositionedGlyph where
  glyph_id : Nat
  font_id : Nat
  position : Point
  advance : Vec2
  offset : Vec2
deriving DecidableEq, Repr

/-- Shaped text result: positioned glyphs plus aggregate dimensions. -/
structure ShapedText where
  glyphs : List PositionedGlyph
  width : Rat
  height : Rat
  baseline : Rat
deriving DecidableEq, Repr

/-- Text direction. -/
inductive Direction
  | LeftToRight | RightToLeft | TopToBottom | BottomToTop
deriving DecidableEq, Repr

end FontTypes

/-! ## font_registry (font_registry/src/types.rs, registry.rs) -/

namespace FontRegistry

open FontTypes

/-- Font metrics held by a registry face (registry types.rs). -/
structure FontMetrics where
  units_per_em : Nat
  ascent : Rat
  descent : Rat
  line_gap : Rat
  cap_height : Rat
  x_height : Rat
  underline_position : Rat
  underline_thickness : Rat
deriving DecidableEq, Repr

/-- Loaded font face as stored in the registry. -/
structure FontFace where
  id : Nat
  family_name : List Char
  postscript_name : List Char
  weight : FontWeight
  style : FontStyle
  stretch : FontStretch
  metrics : FontMetrics
  file_path : Option (List Char)
  data : Option (List Nat)
  is_system_font : Bool
deriving DecidableEq, Repr

/-- Font selection descriptor with ordered family fallback chain. -/
structure FontDescriptor where
  family : List (List Char)
  weight : FontWeight
  style : FontStyle
  stretch : FontStretch
  size : Rat
deriving DecidableEq, Repr

/-- Registry error kinds (payload strings elided). -/
inductive RegistryError
  | FileNotFound | InvalidFont | DuplicateFont | SystemFontsUnavailable
deriving DecidableEq, Repr

/-- Registry state: the id-to-face map (in hash-map iteration order) and
the next id to assign.  The HashMap of the source is modelled as an
association list whose order stands for the (unspecified) iteration order. -/
structure RegistryState where
  fonts : List (Nat × FontFace)
  next_id : Nat
deriving DecidableEq, Repr

/-- Case-insensitive family test of match_font: the descriptor chain is
searched for any family whose lowercase form equals the lowercase face
family name (registry.rs lines 362-364). -/
def familyMatches (d : FontDescriptor) (f : FontFace) : Bool :=
  d.family.any fun fam => fam.map Char.toLower == f.family_name.map Char.toLower

/-- Candidate score of match_font: |weight difference| plus 1000 on style
mismatch plus |stretch difference| (registry.rs lines 371-384). -/
def scoreFont (d : FontDescriptor) (f : FontFace) : Int :=
  ((d.weight.toNum - f.weight.toNum).natAbs : Int)
    + (if d.style = f.style then 0 else 1000)
    + ((d.stretch.toNum - f.stretch.toNum).natAbs : Int)

/-- One step of the match_font loop body: keep the current best unless the
new candidate has a strictly smaller score (registry.rs lines 386-393). -/
def matchFontStep (d : FontDescriptor) (best : Option (Nat × Int))
    (e : Nat × FontFace) : Option (Nat × Int) :=
  if familyMatches d e.2 then
    let score := scoreFont d e.2
    match best with
    | some (bid, bscore) =>
        if score < bscore then some (e.1, score) else some (bid, bscore)
    | none => some (e.1, score)
  else best

/-- FontRegistry::match_font (registry.rs lines 348-397).  The fold order
over the fonts list stands for the HashMap iteration order. -/
def matchFont (st : RegistryState) (d : FontDescriptor) : Option Nat :=
  if st.fonts.isEmpty then none
  else (st.fonts.foldl (matchFontStep d) none).map Prod.fst

/-- Best candidate of one family under the selection rule stated by the
spec: smallest score wins, ties broken by lower face id.  Part of the
spec-worded matcher used only for refinement comparison with matchFont. -/
def claimedPickBest (d : FontDescriptor) :
    List (Nat × FontFace) → Option (Nat × Int) → Option (Nat × Int)
  | [], best => best
  | e :: rest, best =>
      let s := scoreFont d e.2
      let best' :=
        match best with
        | none => some (e.1, s)
        | some (bid, bs) =>
            if s < bs then some (e.1, s)
            else if s = bs ∧ e.1 < bid then some (e.1, s)
            else some (bid, bs)
      claimedPickBest d rest best'

/-- Family-chain walk of the spec-worded matcher: first family with a
non-empty candidate set wins.  Used only for refinement comparison. -/
def claimedFamilies (fonts : List (Nat × FontFace)) (d : FontDescriptor) :
    List (List Char) → Option Nat
  | [] => none
  | fam :: rest =>
      let cands := fonts.filter
        fun e => fam.map Char.toLower == e.2.family_name.map Char.toLower
      match claimedPickBest d cands none with
      | some (bid, _) => some bid
      | none => claimedFamilies fonts d rest

/-- Modelled from the spec: the matching algorithm exactly as worded in the
spec and in claim C1 — walk the descriptor family chain from first to last,
return the smallest-score candidate of the first family that has one, ties
broken by lower face id.  Exists solely to be compared against matchFont. -/
def claimedMatchFont (st : RegistryState) (d : FontDescriptor) : Option Nat :=
  claimedFamilies st.fonts d d.family

/-- Face metadata extracted by ttf-parser, an external crate: passed in as
an abstract parse result (None models a parse failure). -/
structure TtfFaceInfo where
  family_name : Option (List Char)
  postscript_name : Option (List Char)
  weight_number : Nat
  is_italic : Bool
  units_per_em : Nat
  ascender : Int
  descender : Int
  line_gap : Int
  capital_height : Option Int
  x_height : Option Int
  underline_metrics : Option (Int × Int)
deriving DecidableEq, Repr

/-- Weight mapping of load_font_data (registry.rs lines 97-108). -/
def weightFromNumber : Nat → FontWeight
  | 100 => .Thin
  | 200 => .ExtraLight
  | 300 => .Light
  | 400 => .Regular
  | 500 => .Medium
  | 600 => .SemiBold
  | 700 => .Bold
  | 800 => .ExtraBold
  | 900 => .Black
  | _ => .Regular

/-- Fallback family name of load_font_data. -/
def unknownName : List Char := ['U', 'n', 'k', 'n', 'o', 'w', 'n']

/-- FontRegistry::load_font_data (registry.rs lines 71-169).  ttfParse is
the external ttf-parser front end; everything after it mirrors the source:
metadata extraction with defaults, FontFace construction, insertion under
next_id, and increment of next_id. -/
def loadFontData (ttfParse : List Nat → Option TtfFaceInfo)
    (st : RegistryState) (data : List Nat) :
    Except RegistryError Nat × RegistryState :=
  if data = [] then (.error .InvalidFont, st)
  else
    match ttfParse data with
    | none => (.error .InvalidFont, st)
    | some face =>
        let family_name := face.family_name.getD unknownName
        let postscript_name := face.postscript_name.getD family_name
        let weight := weightFromNumber face.weight_number
        let style := if face.is_italic then FontStyle.Italic else FontStyle.Normal
        let stretch := FontStretch.Normal
        let metrics : FontMetrics :=
          { units_per_em := face.units_per_em
            ascent := (face.ascender : Rat)
            descent := (face.descender : Rat)
            line_gap := (face.line_gap : Rat)
            cap_height := ((face.capital_height.getD 700 : Int) : Rat)
            x_height := ((face.x_height.getD 500 : Int) : Rat)
            underline_position :=
              (((face.underline_metrics.map Prod.fst).getD (-150) : Int) : Rat)
            underline_thickness :=
              (((face.underline_metrics.map Prod.snd).getD 50 : Int) : Rat) }
        let font_id := st.next_id
        let font_face : FontFace :=
          { id := font_id
            family_name := family_name
            postscript_name := postscript_name
            weight := weight
            style := style
            stretch := stretch
            metrics := metrics
            file_path := none
            data := some data
            is_system_font := false }
        (.ok font_id,
          { fonts := st.fonts ++ [(font_id, font_face)]
            next_id := st.next_id + 1 })

end FontRegistry

/-! ## font_parser (font_parser/src/error.rs, types.rs, variable_fonts.rs) -/

namespace FontParser

/-- Font parsing error kinds (payload strings elided; every claim settled
here concerns only the kind). -/
inductive ParseError
  | InvalidFormat | MissingTable | CorruptedData | UnsupportedVersion
deriving DecidableEq, Repr

/-- Big-endian value of a byte list. -/
def beBytes (bs : List Nat) : Nat :=
  bs.foldl (fun a b => a * 256 + b) 0

/-- Cursor read of n big-endian bytes at pos; None models the io EOF error
of byteorder reads. -/
def readBE (data : List Nat) (pos n : Nat) : Option Nat :=
  if pos + n ≤ data.length then some (beBytes ((data.drop pos).take n))
  else none

/-- Signed 32-bit reinterpretation of a big-endian u32 value. -/
def toI32 (n : Nat) : Int :=
  if n < 2 ^ 31 then (n : Int) else (n : Int) - 2 ^ 32

/-- Fixed(i32) 16.16 value converted to f32 (variable_fonts.rs lines
315-332), modelled exactly as a rational. -/
def fixedToRat (n : Nat) : Rat :=
  (toI32 n : Rat) / 65536

/-- Table record of the sfnt directory (types.rs lines 15-21). -/
structure TableRecord where
  checksum : Nat
  offset : Nat
  length : Nat
deriving DecidableEq, Repr

/-- Parsed OpenType font: container bytes plus the tag-keyed directory.
The HashMap is an association list with unique tags. -/
structure OpenTypeFont where
  data : List Nat
  tables : List (Nat × TableRecord)
deriving DecidableEq, Repr

/-- HashMap::insert on the table directory: replace an existing binding of
the tag, else append. -/
def tablesInsert (l : List (Nat × TableRecord)) (tag : Nat)
    (r : TableRecord) : List (Nat × TableRecord) :=
  if l.any (fun e => e.1 == tag) then
    l.map (fun e => if e.1 == tag then (tag, r) else e)
  else l ++ [(tag, r)]

/-- Directory-entry loop of OpenTypeFont::parse (types.rs lines 222-247):
each entry reads tag, checksum, offset, length as big-endian u32. -/
def parseTableEntries (data : List Nat) :
    Nat → Nat → List (Nat × TableRecord) →
    Except ParseError (List (Nat × TableRecord))
  | 0, _, acc => .ok acc
  | n + 1, pos, acc =>
      match readBE data pos 4, readBE data (pos + 4) 4,
            readBE data (pos + 8) 4, readBE data (pos + 12) 4 with
      | some tag, some checksum, some off, some len =>
          parseTableEntries data n (pos + 16)
            (tablesInsert acc tag ⟨checksum, off, len⟩)
      | _, _, _, _ => .error .CorruptedData

/-- OpenTypeFont::parse (types.rs lines 173-250).  The WOFF1/WOFF2
decompressors live in woff.rs / woff2.rs and are passed in as the
functions woff1 and woff2; the sfnt path below never invokes them. -/
def OpenTypeFont.parse
    (woff1 woff2 : List Nat → Except ParseError (List Nat))
    (data : List Nat) : Except ParseError OpenTypeFont :=
  if data.length < 12 then .error .CorruptedData
  else
    let signature := beBytes (data.take 4)
    let dataE : Except ParseError (List Nat) :=
      if signature = 0x774F4646 then woff1 data
      else if signature = 0x774F4632 then woff2 data
      else .ok data
    match dataE with
    | .error e => .error e
    | .ok data =>
        match readBE data 0 4 with
        | none => .error .CorruptedData
        | some version =>
            if version = 0x00010000 ∨ version = 0x4F54544F then
              match readBE data 4 2, readBE data 6 2,
                    readBE data 8 2, readBE data 10 2 with
              | some numTables, some _, some _, some _ =>
                  match parseTableEntries data numTables 12 [] with
                  | .ok tables => .ok ⟨data, tables⟩
                  | .error e => .error e
              | _, _, _, _ => .error .CorruptedData
            else .error .InvalidFormat

/-- Directory lookup by tag. -/
def tableLookup (l : List (Nat × TableRecord)) (tag : Nat) :
    Option TableRecord :=
  (l.find? fun e => e.1 == tag).map Prod.snd

/-- OpenTypeFont::get_table (types.rs lines 263-269).  The source slices
data[offset .. offset+length] unconditionally; when the range exceeds the
container the Rust slice indexing panics, modelled here by the inner
None. -/
def OpenTypeFont.get_table (f : OpenTypeFont) (tag : Nat) :
    Option (Option (List Nat)) :=
  (tableLookup f.tables tag).map fun r =>
    if r.offset + r.length ≤ f.data.length then
      some ((f.data.drop r.offset).take r.length)
    else none

/-- Variation axis of the fvar table. -/
structure VariationAxis where
  tag : Nat
  name_id : Nat
  min_value : Rat
  default_value : Rat
  max_value : Rat
deriving DecidableEq, Repr

/-- Named instance of the fvar table. -/
structure NamedInstance where
  subfamily_name_id : Nat
  coordinates : List Rat
  postscript_name_id : Option Nat
deriving DecidableEq, Repr

/-- Parsed fvar table. -/
structure FvarTable where
  axes : List VariationAxis
  instances : List NamedInstance
deriving DecidableEq, Repr

/-- Axis-record loop of FvarTable::parse (variable_fonts.rs lines
98-134): 20 bytes per axis plus the skip for axis_size > 20. -/
def parseAxes (data : List Nat) :
    Nat → Nat → Nat → Except ParseError (List VariationAxis × Nat)
  | 0, pos, _ => .ok ([], pos)
  | n + 1, pos, axisSize =>
      match readBE data pos 4, readBE data (pos + 4) 4,
            readBE data (pos + 8) 4, readBE data (pos + 12) 4,
            readBE data (pos + 16) 2, readBE data (pos + 18) 2 with
      | some tag, some mn, some df, some mx, some _flags, some nameId =>
          let pos' := pos + 20 + (if axisSize > 20 then axisSize - 20 else 0)
          match parseAxes data n pos' axisSize with
          | .ok (axes, p) =>
              .ok (⟨tag, nameId, fixedToRat mn, fixedToRat df,
                    fixedToRat mx⟩ :: axes, p)
          | .error e => .error e
      | _, _, _, _, _, _ => .error .CorruptedData

/-- Per-instance coordinate loop (variable_fonts.rs lines 146-152). -/
def readCoords (data : List Nat) :
    Nat → Nat → Except ParseError (List Rat × Nat)
  | 0, pos => .ok ([], pos)
  | n + 1, pos =>
      match readBE data pos 4 with
      | some v =>
          match readCoords data n (pos + 4) with
          | .ok (cs, p) => .ok (fixedToRat v :: cs, p)
          | .error e => .error e
      | none => .error .CorruptedData

/-- Named-instance loop of FvarTable::parse (variable_fonts.rs lines
137-180), including the optional postScriptNameID and the skip of any
surplus instance bytes. -/
def parseInstances (data : List Nat) (axisCount instanceSize : Nat) :
    Nat → Nat → Except ParseError (List NamedInstance × Nat)
  | 0, pos => .ok ([], pos)
  | n + 1, pos =>
      match readBE data pos 2, readBE data (pos + 2) 2 with
      | some subfam, some _flags =>
          match readCoords data axisCount (pos + 4) with
          | .error e => .error e
          | .ok (coords, p1) =>
              let baseSize := 4 + 4 * axisCount
              if instanceSize > baseSize then
                match readBE data p1 2 with
                | none => .error .CorruptedData
                | some psid =>
                    let expected := baseSize + 2
                    let pos' := p1 + 2 +
                      (if instanceSize > expected then instanceSize - expected
                       else 0)
                    match parseInstances data axisCount instanceSize n pos' with
                    | .ok (insts, p) =>
                        .ok (⟨subfam, coords, some psid⟩ :: insts, p)
                    | .error e => .error e
              else
                let pos' := p1 +
                  (if instanceSize > baseSize then instanceSize - baseSize
                   else 0)
                match parseInstances data axisCount instanceSize n pos' with
                | .ok (insts, p) =>
                    .ok (⟨subfam, coords, none⟩ :: insts, p)
                | .error e => .error e
      | _, _ => .error .CorruptedData

/-- FvarTable::parse (variable_fonts.rs lines 56-183).  The version check
at lines 67-73 rejects any version other than 1.0 with the CorruptedData
kind. -/
def FvarTable.parse (data : List Nat) : Except ParseError FvarTable :=
  match readBE data 0 2, readBE data 2 2 with
  | some major, some minor =>
      if major = 1 ∧ minor = 0 then
        match readBE data 4 2, readBE data 6 2, readBE data 8 2,
              readBE data 10 2, readBE data 12 2, readBE data 14 2 with
        | some axesOffset, some _reserved, some axisCount, some axisSize,
          some instanceCount, some instanceSize =>
            match parseAxes data axisCount axesOffset axisSize with
            | .error e => .error e
            | .ok (axes, pos) =>
                match parseInstances data axisCount instanceSize
                        instanceCount pos with
                | .error e => .error e
                | .ok (instances, _) => .ok ⟨axes, instances⟩
        | _, _, _, _, _, _ => .error .CorruptedData
      else .error .CorruptedData
  | _, _ => .error .CorruptedData

/-- Parsed avar table: one segment map (list of from/to pairs) per axis. -/
structure AvarTable where
  axis_segment_maps : List (List (Rat × Rat))
deriving DecidableEq, Repr

/-- Pair loop of one avar segment map (variable_fonts.rs lines 264-277). -/
def readPairs (data : List Nat) :
    Nat → Nat → Except ParseError (List (Rat × Rat) × Nat)
  | 0, pos => .ok ([], pos)
  | n + 1, pos =>
      match readBE data pos 4, readBE data (pos + 4) 4 with
      | some fr, some toc =>
          match readPairs data n (pos + 8) with
          | .ok (ps, p) => .ok ((fixedToRat fr, fixedToRat toc) :: ps, p)
          | .error e => .error e
      | _, _ => .error .CorruptedData

/-- Per-axis segment-map loop of AvarTable::parse (variable_fonts.rs lines
258-280). -/
def parseSegmentMaps (data : List Nat) :
    Nat → Nat → Except ParseError (List (List (Rat × Rat)) × Nat)
  | 0, pos => .ok ([], pos)
  | n + 1, pos =>
      match readBE data pos 2 with
      | none => .error .CorruptedData
      | some count =>
          match readPairs data count (pos + 2) with
          | .error e => .error e
          | .ok (ps, p1) =>
              match parseSegmentMaps data n p1 with
              | .ok (maps, p) => .ok (ps :: maps, p)
              | .error e => .error e

/-- AvarTable::parse (variable_fonts.rs lines 224-283).  The version check
at lines 236-241 rejects any version other than 1.0 with the CorruptedData
kind; the axis count must match the fvar axis count. -/
def AvarTable.parse (data : List Nat) (axisCount : Nat) :
    Except ParseError AvarTable :=
  match readBE data 0 2, readBE data 2 2 with
  | some major, some minor =>
      if major = 1 ∧ minor = 0 then
        match readBE data 4 2, readBE data 6 2 with
        | some _reserved, some axisCountAvar =>
            if axisCountAvar = axisCount then
              match parseSegmentMaps data axisCount 8 with
              | .ok (maps, _) => .ok ⟨maps⟩
              | .error e => .error e
            else .error .CorruptedData
        | _, _ => .error .CorruptedData
      else .error .CorruptedData
  | _, _ => .error .CorruptedData

end FontParser

/-! ## glyph_renderer (glyph_renderer/src/lib.rs, types.rs) -/

namespace GlyphRenderer

/-- Render mode discriminator. -/
inductive RenderMode
  | Mono | Gray | SubpixelRgb
deriving DecidableEq, Repr

/-- Rasterized glyph bitmap. -/
structure GlyphBitmap where
  width : Nat
  height : Nat
  left : Int
  top : Int
  pitch : Nat
  data : List Nat
  format : RenderMode
deriving DecidableEq, Repr

/-- Rendering error kinds (message payloads elided). -/
inductive RenderError
  | GlyphNotFound (id : Nat) | RasterizationFailed | OutOfMemory
deriving DecidableEq, Repr

/-- Font handle of the glyph renderer (types.rs lines 24-30): raw bytes
plus a face index. -/
structure OpenTypeFont where
  data : List Nat
  face_index : Int
deriving DecidableEq, Repr

/-- Cache key of the glyph cache (lib.rs lines 48-53).  Note: the source
key holds only glyph_id, the 26.6 size and the mode — no face identity. -/
structure CacheKey where
  glyph_id : Nat
  size : Nat
  mode : RenderMode
deriving DecidableEq, Repr

/-- Truncating f32-to-u32 cast (the Rust as-cast saturates at zero below
and truncates toward zero above). -/
def f32ToU32 (q : Rat) : Nat :=
  if q ≤ 0 then 0 else min q.floor.toNat (2 ^ 32 - 1)

/-- Glyph cache state.  The lru crate store is an association list in
recency order: head is least recently used, last is most recently used. -/
structure GlyphCache where
  entries : List (CacheKey × GlyphBitmap)
  hits : Nat
  misses : Nat
  evictions : Nat
  memory_bytes : Nat
  max_entries : Nat
  max_memory_bytes : Nat
deriving DecidableEq, Repr

/-- GlyphCache::new (lib.rs lines 72-79); max_entries must be non-zero
(the source unwraps a NonZeroUsize). -/
def GlyphCache.new (maxEntries maxMemoryBytes : Nat) : GlyphCache :=
  { entries := [], hits := 0, misses := 0, evictions := 0
    memory_bytes := 0, max_entries := maxEntries
    max_memory_bytes := maxMemoryBytes }

/-- First binding of a key in the recency list. -/
def findEntry (l : List (CacheKey × GlyphBitmap)) (k : CacheKey) :
    Option GlyphBitmap :=
  (l.find? fun e => e.1 == k).map Prod.snd

/-- Removal of the first binding of a key from the recency list. -/
def removeKey : List (CacheKey × GlyphBitmap) → CacheKey →
    List (CacheKey × GlyphBitmap)
  | [], _ => []
  | e :: rest, k => if e.1 = k then rest else e :: removeKey rest k

/-- GlyphCache::get (lib.rs lines 81-89): a present key is promoted to
most recently used and counts a hit; an absent key counts a miss. -/
def cacheGet (c : GlyphCache) (k : CacheKey) :
    Option GlyphBitmap × GlyphCache :=
  match findEntry c.entries k with
  | some v =>
      (some v,
        { c with entries := removeKey c.entries k ++ [(k, v)]
                 hits := c.hits + 1 })
  | none => (none, { c with misses := c.misses + 1 })

/-- LruCache::push of the lru crate: replacing an existing key returns the
old binding; pushing at capacity evicts and returns the LRU entry. -/
def lruPush (c : GlyphCache) (k : CacheKey) (v : GlyphBitmap) :
    Option (CacheKey × GlyphBitmap) × GlyphCache :=
  match findEntry c.entries k with
  | some old =>
      (some (k, old), { c with entries := removeKey c.entries k ++ [(k, v)] })
  | none =>
      if c.entries.length = c.max_entries then
        match c.entries with
        | [] => (none, { c with entries := [(k, v)] })
        | e :: rest => (some e, { c with entries := rest ++ [(k, v)] })
      else (none, { c with entries := c.entries ++ [(k, v)] })

/-- Byte size of an entry. -/
def entrySize (e : CacheKey × GlyphBitmap) : Nat :=
  e.2.data.length

/-- Eviction loop of GlyphCache::evict_to_fit (lib.rs lines 115-122):
pop LRU entries while the byte counter exceeds the target and the store
is non-empty. -/
def evictLoop (target : Nat) :
    List (CacheKey × GlyphBitmap) → Nat → Nat →
    List (CacheKey × GlyphBitmap) × Nat × Nat
  | [], mem, ev => ([], mem, ev)
  | e :: rest, mem, ev =>
      if mem > target then
        evictLoop target rest (mem - entrySize e) (ev + 1)
      else (e :: rest, mem, ev)

/-- GlyphCache::evict_to_fit (lib.rs lines 110-123): the target is
max_memory_bytes saturating-minus the required bytes. -/
def evictToFit (c : GlyphCache) (required : Nat) : GlyphCache :=
  let target := c.max_memory_bytes - required
  let r := evictLoop target c.entries c.memory_bytes c.evictions
  { c with entries := r.1, memory_bytes := r.2.1, evictions := r.2.2 }

/-- GlyphCache::insert (lib.rs lines 91-108): evict to fit when the new
bitmap would overflow the byte budget, push (accounting for any entry the
push evicts or replaces), then add the new bitmap size. -/
def cacheInsert (c : GlyphCache) (k : CacheKey) (v : GlyphBitmap) :
    GlyphCache :=
  let b := v.data.length
  let c1 := if c.memory_bytes + b > c.max_memory_bytes then evictToFit c b
            else c
  let pushed := lruPush c1 k v
  let c2 :=
    match pushed.1 with
    | some e =>
        { pushed.2 with
            memory_bytes := pushed.2.memory_bytes - entrySize e
            evictions := pushed.2.evictions + 1 }
    | none => pushed.2
  { c2 with memory_bytes := c2.memory_bytes + b }

/-- GlyphRenderer::rasterize_glyph (lib.rs lines 183-217).  The FreeType
rasterization backend (rasterize_with_freetype) is external and passed in
as the function rasterize.  The cache key is built from glyph_id, a
truncated 26.6 size, and the mode — the font is not part of the key. -/
def rasterizeGlyph
    (rasterize : OpenTypeFont → Nat → Rat → RenderMode →
      Except RenderError GlyphBitmap)
    (c : GlyphCache) (font : OpenTypeFont) (glyphId : Nat) (size : Rat)
    (mode : RenderMode) : Except RenderError GlyphBitmap × GlyphCache :=
  let key : CacheKey := ⟨glyphId, f32ToU32 (size * 64), mode⟩
  match cacheGet c key with
  | (some bm, c') => (.ok bm, c')
  | (none, c') =>
      if font.data = [] then (.error .RasterizationFailed, c')
      else
        match rasterize font glyphId size mode with
        | .error e => (.error e, c')
        | .ok bm => (.ok bm, cacheInsert c' key bm)

/-- Sequence of puts applied to a cache. -/
def putSeq (c : GlyphCache) (puts : List (CacheKey × GlyphBitmap)) :
    GlyphCache :=
  puts.foldl (fun c e => cacheInsert c e.1 e.2) c

/-- Total byte size of the resident entries. -/
def sumData (l : List (CacheKey × GlyphBitmap)) : Nat :=
  (l.map entrySize).sum

end GlyphRenderer

/-! ## text_shaper (text_shaper/src/types.rs, shaper.rs) -/

namespace TextShaper

open FontTypes

/-- Unicode script identifier. -/
inductive Script
  | Latin | Arabic | Hebrew | Cyrillic | Greek
  | Han | Hangul | Hiragana | Katakana | Common
deriving DecidableEq, Repr

/-- Language tag. -/
structure Language where
  tag : List Char
deriving DecidableEq, Repr

/-- Shaping error kinds (payload strings elided). -/
inductive ShapingError
  | FontNotFound | InvalidText | UnsupportedScript
deriving DecidableEq, Repr

/-- Shaping options; the features HashMap is an association list. -/
structure ShapingOptions where
  script : Script
  language : Language
  direction : Direction
  features : List (List Char × Nat)
  kerning : Bool
  ligatures : Bool
  letter_spacing : Rat
  word_spacing : Rat
deriving DecidableEq, Repr

/-- Shaping cache key (shaper.rs lines 39-65): text, font id, the size
truncated to one decimal of fixed point, and the options hash. -/
structure ShapingCacheKey where
  text : List Char
  font_id : Nat
  size_fixed : Nat
  options_hash : Nat
deriving DecidableEq, Repr

/-- Shaping cache state: LRU association list (head least recent) plus
statistics and the entry bound. -/
structure ShapingCache where
  entries : List (ShapingCacheKey × ShapedText)
  hits : Nat
  misses : Nat
  evictions : Nat
  max_entries : Nat
deriving DecidableEq, Repr

/-- First binding of a key in the shaping cache recency list. -/
def shFindEntry (l : List (ShapingCacheKey × ShapedText))
    (k : ShapingCacheKey) : Option ShapedText :=
  (l.find? fun e => e.1 == k).map Prod.snd

/-- Removal of the first binding of a key. -/
def shRemoveKey : List (ShapingCacheKey × ShapedText) → ShapingCacheKey →
    List (ShapingCacheKey × ShapedText)
  | [], _ => []
  | e :: rest, k => if e.1 = k then rest else e :: shRemoveKey rest k

/-- ShapingCache::get (shaper.rs lines 105-113): promote on hit, count
hits and misses. -/
def shGet (c : ShapingCache) (k : ShapingCacheKey) :
    Option ShapedText × ShapingCache :=
  match shFindEntry c.entries k with
  | some v =>
      (some v,
        { c with entries := shRemoveKey c.entries k ++ [(k, v)]
                 hits := c.hits + 1 })
  | none => (none, { c with misses := c.misses + 1 })

/-- ShapingCache::insert (shaper.rs lines 115-119): LruCache::push, and
an eviction is counted whenever push returns an old entry. -/
def shInsert (c : ShapingCache) (k : ShapingCacheKey) (v : ShapedText) :
    ShapingCache :=
  match shFindEntry c.entries k with
  | some _ =>
      { c with entries := shRemoveKey c.entries k ++ [(k, v)]
               evictions := c.evictions + 1 }
  | none =>
      if c.entries.length = c.max_entries then
        match c.entries with
        | [] => { c with entries := [(k, v)] }
        | _ :: rest =>
            { c with entries := rest ++ [(k, v)]
                     evictions := c.evictions + 1 }
      else { c with entries := c.entries ++ [(k, v)] }

/-- One glyph of the HarfBuzz output, in 26.6 fixed point. -/
structure HbGlyph where
  codepoint : Nat
  x_advance : Int
  y_advance : Int
  x_offset : Int
  y_offset : Int
deriving DecidableEq, Repr

/-- Pen walk of shape_text (shaper.rs lines 309-346): convert each 26.6
output to float, add letter_spacing to every x advance, place the glyph
at pen plus offset, and return the final cursor x as the total width. -/
def buildGlyphs (fontId : Nat) (letterSpacing : Rat) :
    List HbGlyph → Rat → Rat → List PositionedGlyph × Rat
  | [], cx, _ => ([], cx)
  | g :: rest, cx, cy =>
      let xAdv := (g.x_advance : Rat) / 64
      let yAdv := (g.y_advance : Rat) / 64
      let xOff := (g.x_offset : Rat) / 64
      let yOff := (g.y_offset : Rat) / 64
      let adjusted := xAdv + letterSpacing
      let pg : PositionedGlyph :=
        { glyph_id := g.codepoint
          font_id := fontId
          position := ⟨cx + xOff, cy + yOff⟩
          advance := ⟨adjusted, yAdv⟩
          offset := ⟨xOff, yOff⟩ }
      let r := buildGlyphs fontId letterSpacing rest (cx + adjusted) (cy + yAdv)
      (pg :: r.1, r.2)

/-- Shaping cache key construction (shaper.rs lines 51-65); the
DefaultHasher over the options is external and passed in as optsHash. -/
def mkShapingCacheKey (optsHash : ShapingOptions → Nat) (text : List Char)
    (fontId : Nat) (size : Rat) (opts : ShapingOptions) : ShapingCacheKey :=
  ⟨text, fontId, GlyphRenderer.f32ToU32 (size * 10), optsHash opts⟩

/-- Core shaping path of shape_text (shaper.rs lines 244-358): registry
face lookup, font data check, the external HarfBuzz shape call (passed in
as hbShape), the pen walk, and the metric-derived height and baseline. -/
def shapeCore
    (hbShape : List Nat → List Char → ShapingOptions → Rat → List HbGlyph)
    (registry : FontRegistry.RegistryState) (text : List Char)
    (fontId : Nat) (size : Rat) (opts : ShapingOptions) :
    Except ShapingError ShapedText :=
  match registry.fonts.find? (fun e => e.1 == fontId) with
  | none => .error .FontNotFound
  | some ef =>
      match ef.2.data with
      | none => .error .FontNotFound
      | some fontData =>
          let out := hbShape fontData text opts size
          let built := buildGlyphs fontId opts.letter_spacing out 0 0
          let scaleFactor := size / (ef.2.metrics.units_per_em : Rat)
          let height := (ef.2.metrics.ascent - ef.2.metrics.descent) * scaleFactor
          let baseline := ef.2.metrics.ascent * scaleFactor
          .ok ⟨built.1, built.2, height, baseline⟩

/-- TextShaper::shape_text (shaper.rs lines 219-367).  Empty text returns
an empty ShapedText before any cache access; otherwise the cache (when
enabled) is probed, and on a miss the core shaping runs and the result is
stored. -/
def shapeText (optsHash : ShapingOptions → Nat)
    (hbShape : List Nat → List Char → ShapingOptions → Rat → List HbGlyph)
    (registry : FontRegistry.RegistryState) (cache : Option ShapingCache)
    (text : List Char) (fontId : Nat) (size : Rat) (opts : ShapingOptions) :
    Except ShapingError ShapedText × Option ShapingCache :=
  if text = [] then (.ok ⟨[], 0, 0, 0⟩, cache)
  else
    let key := mkShapingCacheKey optsHash text fontId size opts
    match cache with
    | some sc =>
        match shGet sc key with
        | (some shaped, sc') => (.ok shaped, some sc')
        | (none, sc') =>
            match shapeCore hbShape registry text fontId size opts with
            | .error e => (.error e, some sc')
            | .ok shaped => (.ok shaped, some (shInsert sc' key shaped))
    | none =>
        match shapeCore hbShape registry text fontId size opts with
        | .error e => (.error e, none)
        | .ok shaped => (.ok shaped, none)

end TextShaper

/-! ## text_layout (text_layout/src/types.rs, paragraph.rs,
justification.rs) -/

namespace TextLayout

open FontTypes

/-- Layout error kinds (payload strings elided). -/
inductive LayoutError
  | InvalidOptions | Overflow | InvalidText
deriving DecidableEq, Repr

/-- Text direction for layout. -/
inductive TextDirection
  | LeftToRight | RightToLeft | TopToBottom
deriving DecidableEq, Repr

/-- Justification mode. -/
inductive JustificationMode
  | Left | Right | Center | Justify
deriving DecidableEq, Repr

/-- Paragraph layout options. -/
structure LayoutOptions where
  max_width : Rat
  max_height : Option Rat
  justification : JustificationMode
  line_spacing : Rat
  direction : TextDirection
deriving DecidableEq, Repr

/-- A line break opportunity: byte offset plus the mandatory flag. -/
structure LineBreak where
  offset : Nat
  required : Bool
deriving DecidableEq, Repr

/-- A single laid-out line. -/
structure LayoutLine where
  glyphs : List PositionedGlyph
  width : Rat
  height : Rat
  baseline : Rat
  x_offset : Rat
  y_offset : Rat
  text_range : Nat × Nat
deriving DecidableEq, Repr

/-- Result of a layout operation. -/
structure LayoutResult where
  lines : List LayoutLine
  total_height : Rat
  total_width : Rat
  overflow : Bool
deriving DecidableEq, Repr

/-- ParagraphLayout::should_break_here (paragraph.rs lines 224-233): a
break fires at the index when it is required, or when require_optional is
false and it is optional. -/
def shouldBreakHere (charIndex : Nat) (breaks : List LineBreak)
    (requireOptional : Bool) : Bool :=
  breaks.any fun b =>
    b.offset == charIndex && (b.required || (!requireOptional && !b.required))

/-- Mutable state of the greedy line-breaking loop. -/
structure BreakState where
  lines : List LayoutLine
  cur : List PositionedGlyph
  curWidth : Rat
  lineStart : Nat
  charIndex : Nat
deriving DecidableEq, Repr

/-- Loop body of break_into_lines (paragraph.rs lines 155-205): possible
width-overflow emission before the glyph is appended, the append itself,
then the post-append break check with require_optional = false. -/
def breakStep (breaks : List LineBreak) (maxWidth height baseline : Rat)
    (st : BreakState) (glyph : PositionedGlyph) : BreakState :=
  let gw := glyph.advance.x
  let st1 :=
    if st.curWidth + gw > maxWidth ∧ st.cur ≠ [] then
      if shouldBreakHere st.charIndex breaks true
          ∨ st.curWidth + gw > maxWidth * (6 / 5 : Rat) then
        { st with
            lines := st.lines ++
              [⟨st.cur, st.curWidth, height, baseline, 0, 0,
                (st.lineStart, st.charIndex)⟩]
            cur := [], curWidth := 0, lineStart := st.charIndex }
      else st
    else st
  let st2 :=
    { st1 with cur := st1.cur ++ [glyph], curWidth := st1.curWidth + gw
               charIndex := st1.charIndex + 1 }
  if shouldBreakHere st2.charIndex breaks false then
    { st2 with
        lines := st2.lines ++
          [⟨st2.cur, st2.curWidth, height, baseline, 0, 0,
            (st2.lineStart, st2.charIndex)⟩]
        cur := [], curWidth := 0, lineStart := st2.charIndex }
  else st2

/-- ParagraphLayout::break_into_lines (paragraph.rs lines 126-221):
empty shaped input yields one empty line; otherwise the greedy loop runs
and any non-empty remainder becomes the final line ending at the text
length. -/
def breakIntoLines (textLen : Nat) (shaped : ShapedText)
    (breaks : List LineBreak) (maxWidth : Rat) : List LayoutLine :=
  if shaped.glyphs = [] then
    [⟨[], 0, shaped.height, shaped.baseline, 0, 0, (0, 0)⟩]
  else
    let st0 : BreakState := ⟨[], [], 0, 0, 0⟩
    let st := shaped.glyphs.foldl
      (breakStep breaks maxWidth shaped.height shaped.baseline) st0
    st.lines ++
      (if st.cur ≠ [] then
        [⟨st.cur, st.curWidth, shaped.height, shaped.baseline, 0, 0,
          (st.lineStart, textLen)⟩]
       else [])

/-- Gap-counting loop of count_justification_gaps (justification.rs lines
137-147): count advances that jump to more than 1.5 times the previous
positive advance. -/
def gapLoop : List PositionedGlyph → Rat → Nat → Nat
  | [], _, acc => acc
  | g :: rest, prev, acc =>
      gapLoop rest g.advance.x
        (if prev > 0 ∧ g.advance.x > prev * (3 / 2 : Rat) then acc + 1
         else acc)

/-- Justifier::count_justification_gaps (justification.rs lines 130-150):
zero for an empty line, otherwise the heuristic count clamped to at
least 1. -/
def countJustificationGaps (l : LayoutLine) : Nat :=
  if l.glyphs = [] then 0 else max (gapLoop l.glyphs 0 0) 1

/-- Glyph-adjustment loop of distribute_space (justification.rs lines
94-112): each glyph is shifted by the running cumulative offset, which
grows by space_per_gap at every second positive-advance glyph. -/
def adjustLoop (spg : Rat) :
    List PositionedGlyph → Rat → Bool → List PositionedGlyph
  | [], _, _ => []
  | g :: rest, cum, inGap =>
      let g' := { g with position := ⟨g.position.x + cum, g.position.y⟩ }
      if g.advance.x > 0 then
        if inGap then g' :: adjustLoop spg rest (cum + spg) false
        else g' :: adjustLoop spg rest cum true
      else g' :: adjustLoop spg rest cum inGap

/-- Justifier::distribute_space (justification.rs lines 70-116). -/
def distributeSpace (l : LayoutLine) (target : Rat) : LayoutLine :=
  let extra := target - l.width
  if extra ≤ 0 then { l with x_offset := 0 }
  else
    let gaps := countJustificationGaps l
    if gaps = 0 then { l with x_offset := 0 }
    else
      let spg := extra / (gaps : Rat)
      { l with glyphs := adjustLoop spg l.glyphs 0 false
               x_offset := 0, width := target }

/-- Justifier::justify_line (justification.rs lines 44-59). -/
def justifyLine (l : LayoutLine) (target : Rat) (mode : JustificationMode) :
    LayoutLine :=
  match mode with
  | .Left => { l with x_offset := 0 }
  | .Right => { l with x_offset := target - l.width }
  | .Center => { l with x_offset := (target - l.width) / 2 }
  | .Justify => distributeSpace l target

/-- Index loop of justify_lines (justification.rs lines 179-181): justify
the lines with index below n, leave the rest unchanged. -/
def justifyLoop (target : Rat) (mode : JustificationMode) (n : Nat) :
    Nat → List LayoutLine → List LayoutLine
  | _, [] => []
  | i, l :: rest =>
      (if i < n then justifyLine l target mode else l)
        :: justifyLoop target mode n (i + 1) rest

/-- Final assignment of justify_lines (justification.rs lines 184-186):
set the last line x_offset to zero. -/
def setLastX0 : List LayoutLine → List LayoutLine
  | [] => []
  | [l] => [{ l with x_offset := 0 }]
  | l :: rest => l :: setLastX0 rest

/-- Justifier::justify_lines (justification.rs lines 162-187): under
Justify the last line is excluded from justification and left-aligned;
under the other modes every line is justified. -/
def justifyLines (lines : List LayoutLine) (target : Rat)
    (mode : JustificationMode) : List LayoutLine :=
  if lines = [] then lines
  else
    let n := if mode = .Justify then lines.length - 1 else lines.length
    let ls := justifyLoop target mode n 0 lines
    if mode = .Justify then setLastX0 ls else ls

/-- ParagraphLayout::position_lines_vertically (paragraph.rs lines
236-243). -/
def positionLoop (spacing : Rat) : List LayoutLine → Rat → List LayoutLine
  | [], _ => []
  | l :: rest, y =>
      { l with y_offset := y } :: positionLoop spacing rest (y + l.height * spacing)

/-- ParagraphLayout::layout_paragraph (paragraph.rs lines 60-102).  The
break list produced by LineBreaker::find_breaks delegates entirely to the
external unicode-linebreak crate and is passed in as the breaks
parameter. -/
def layoutParagraph (breaks : List LineBreak) (text : List Char)
    (shaped : ShapedText) (options : LayoutOptions) :
    Except LayoutError LayoutResult :=
  if text = [] then .error .InvalidText
  else if options.max_width ≤ 0 then .error .InvalidOptions
  else if options.line_spacing ≤ 0 then .error .InvalidOptions
  else
    let lines1 := breakIntoLines text.length shaped breaks options.max_width
    let lines2 := justifyLines lines1 options.max_width options.justification
    let lines3 := positionLoop options.line_spacing lines2 0
    let totalWidth := (lines3.map fun l => l.width + l.x_offset).foldl max 0
    let totalHeight :=
      ((lines3.getLast?).map fun l => l.y_offset + l.height).getD 0
    let overflow :=
      match options.max_height with
      | some mh => decide (totalHeight > mh)
      | none => false
    .ok ⟨lines3, totalHeight, totalWidth, overflow⟩

/-- Total glyph count across the lines of a layout. -/
def sumGlyphs (lines : List LayoutLine) : Nat :=
  (lines.map fun l => l.glyphs.length).sum

end TextLayout

/-! ## Concrete fixtures used by the claim theorems -/

open FontTypes FontRegistry FontParser GlyphRenderer TextShaper TextLayout

/-- Neutral metrics fixture (1000 upem). -/
def cmetrics : FontRegistry.FontMetrics :=
  ⟨1000, 800, -200, 0, 700, 500, -150, 50⟩

/-- Face 0: family A, weight Black. -/
def faceA : FontRegistry.FontFace :=
  ⟨0, ['A'], ['A'], .Black, .Normal, .Normal, cmetrics, none, some [0], false⟩

/-- Face 1: family B, weight Regular. -/
def faceB : FontRegistry.FontFace :=
  ⟨1, ['B'], ['B'], .Regular, .Normal, .Normal, cmetrics, none, some [0], false⟩

/-- Registry holding faces 0 and 1. -/
def cstate : RegistryState := ⟨[(0, faceA), (1, faceB)], 2⟩

/-- Descriptor asking for family chain [A, B] at weight Regular. -/
def cdescr : FontRegistry.FontDescriptor :=
  ⟨[['A'], ['B']], .Regular, .Normal, .Normal, 16⟩

/-- A 28-byte sfnt container: valid header, one directory entry for the
head table with offset 100 and length 100 — far beyond the container. -/
def badFontBytes : List Nat :=
  [0, 1, 0, 0, 0, 1, 0, 0, 0, 0, 0, 0,
   0x68, 0x65, 0x61, 0x64, 0, 0, 0, 0, 0, 0, 0, 100, 0, 0, 0, 100]

/-- Placeholder WOFF decompressors; the sfnt path never calls them. -/
def noWoff : List Nat → Except FontParser.ParseError (List Nat) :=
  fun _ => .error .InvalidFormat

/-- The font that parsing badFontBytes produces. -/
def badFont : FontParser.OpenTypeFont :=
  ⟨badFontBytes, [(0x68656164, ⟨0, 100, 100⟩)]⟩

/-- One-pixel bitmap whose payload identifies the font it came from. -/
def mkBm (d : List Nat) : GlyphBitmap := ⟨1, 1, 0, 0, 1, d, .Gray⟩

/-- Rasterizer backend fixture: the bitmap payload is the font data, so
bitmaps of different fonts are distinguishable. -/
def crast : GlyphRenderer.OpenTypeFont → Nat → Rat → RenderMode →
    Except RenderError GlyphBitmap :=
  fun f _ _ _ => .ok (mkBm f.data)

/-- Renderer font A. -/
def rfontA : GlyphRenderer.OpenTypeFont := ⟨[1], 0⟩

/-- Renderer font B, with different data than A. -/
def rfontB : GlyphRenderer.OpenTypeFont := ⟨[2], 0⟩

/-- Fresh glyph cache with the default bounds of CacheConfig. -/
def glyphCache0 : GlyphCache := GlyphCache.new 10000 (100 * 1024 * 1024)

/-- Glyph with advance 10. -/
def gAdv10 : PositionedGlyph := ⟨1, 0, ⟨0, 0⟩, ⟨10, 0⟩, ⟨0, 0⟩⟩

/-- Shaped text of two advance-10 glyphs. -/
def cshaped : ShapedText := ⟨[gAdv10, gAdv10], 20, 20, 15⟩

/-- Cache key fixture for the byte-budget counterexample. -/
def bigKey : CacheKey := ⟨1, 1024, .Gray⟩

/-- A 15-byte bitmap, larger than the 10-byte budget it is put into. -/
def bigBm : GlyphBitmap := ⟨1, 1, 0, 0, 1, List.replicate 15 0, .Gray⟩

/-! ## Claim theorems -/

/-- C1 (counterexample): the claim predicts that match_font serves the
earliest family of the descriptor chain that has a candidate.  On a
registry with face 0 (family A, weight Black) and face 1 (family B,
weight Regular), and a descriptor with chain [A, B] at weight Regular,
the spec-worded matcher (claimedMatchFont) picks face 0 — family A comes
first — but the source matchFont pools candidates of all families and
returns the globally best-scoring face 1. -/
theorem claim1_match_font_ignores_family_order_counterexample :
    matchFont cstate cdescr = some 1 ∧
    claimedMatchFont cstate cdescr = some 0 := by
  exact ⟨by decide, by decide⟩

/-- Helper: invariant of the match_font fold.  Whenever the fold result is
some (bid, bs), the pair either is the untouched accumulator or names a
candidate of the processed list with score bs; bs is minimal among
processed candidates; and bs is at most the accumulator score. -/
def MatchAcc (d : FontDescriptor) (l : List (Nat × FontFace))
    (acc r : Option (Nat × Int)) : Prop :=
  ∀ bid bs, r = some (bid, bs) →
    (acc = some (bid, bs) ∨
      ∃ f, (bid, f) ∈ l ∧ familyMatches d f = true ∧ scoreFont d f = bs) ∧
    (∀ e ∈ l, familyMatches d e.2 = true → bs ≤ scoreFont d e.2) ∧
    (∀ aid as, acc = some (aid, as) → bs ≤ as)

/-- Helper: the match_font fold satisfies the invariant for every fonts
list and every accumulator. -/
theorem foldl_matchFontStep_spec (d : FontDescriptor) :
    ∀ (l : List (Nat × FontFace)) (acc : Option (Nat × Int)),
      MatchAcc d l acc (l.foldl (matchFontStep d) acc) := by
  intro l
  induction l with
  | nil =>
      intro acc bid bs hr
      simp only [List.foldl_nil] at hr
      refine ⟨Or.inl hr, by simp, fun aid as ha => ?_⟩
      rw [hr] at ha
      obtain ⟨rfl, rfl⟩ : bid = aid ∧ bs = as := by simpa using ha
      exact le_refl _
  | cons e rest ih =>
      intro acc
      simp only [List.foldl_cons]
      intro bid bs hr
      obtain ⟨hA, hB, hC⟩ := ih (matchFontStep d acc e) bid bs hr
      by_cases hfm : familyMatches d e.2 = true
      · cases acc with
        | none =>
            have hacc : matchFontStep d none e
                = some (e.1, scoreFont d e.2) := by
              simp [matchFontStep, hfm]
            refine ⟨?_, ?_, ?_⟩
            · rcases hA with h0 | ⟨f, hf, hff, hfs⟩
              · rw [hacc] at h0
                obtain ⟨rfl, rfl⟩ : e.1 = bid ∧ scoreFont d e.2 = bs := by
                  simpa using h0
                exact Or.inr ⟨e.2, by simp, hfm, rfl⟩
              · exact Or.inr ⟨f, List.mem_cons_of_mem _ hf, hff, hfs⟩
            · intro e2 he2 hfam2
              rcases List.mem_cons.mp he2 with h2 | h2
              · rw [h2]
                exact hC e.1 (scoreFont d e.2) hacc
              · exact hB e2 h2 hfam2
            · intro aid as ha
              exact absurd ha (by simp)
        | some p =>
            obtain ⟨aid0, as0⟩ := p
            by_cases hlt : scoreFont d e.2 < as0
            · have hacc : matchFontStep d (some (aid0, as0)) e
                  = some (e.1, scoreFont d e.2) := by
                simp [matchFontStep, hfm, hlt]
              refine ⟨?_, ?_, ?_⟩
              · rcases hA with h0 | ⟨f, hf, hff, hfs⟩
                · rw [hacc] at h0
                  obtain ⟨rfl, rfl⟩ : e.1 = bid ∧ scoreFont d e.2 = bs := by
                    simpa using h0
                  exact Or.inr ⟨e.2, by simp, hfm, rfl⟩
                · exact Or.inr ⟨f, List.mem_cons_of_mem _ hf, hff, hfs⟩
              · intro e2 he2 hfam2
                rcases List.mem_cons.mp he2 with h2 | h2
                · rw [h2]
                  exact hC e.1 (scoreFont d e.2) hacc
                · exact hB e2 h2 hfam2
              · intro aid as ha
                obtain ⟨rfl, rfl⟩ : aid0 = aid ∧ as0 = as := by simpa using ha
                have h1 := hC e.1 (scoreFont d e.2) hacc
                omega
            · have hacc : matchFontStep d (some (aid0, as0)) e
                  = some (aid0, as0) := by
                simp [matchFontStep, hfm, hlt]
              refine ⟨?_, ?_, ?_⟩
              · rcases hA with h0 | ⟨f, hf, hff, hfs⟩
                · rw [hacc] at h0
                  exact Or.inl h0
                · exact Or.inr ⟨f, List.mem_cons_of_mem _ hf, hff, hfs⟩
              · intro e2 he2 hfam2
                rcases List.mem_cons.mp he2 with h2 | h2
                · rw [h2]
                  have h1 := hC aid0 as0 hacc
                  have h2le : as0 ≤ scoreFont d e.2 := le_of_not_lt hlt
                  omega
                · exact hB e2 h2 hfam2
              · intro aid as ha
                obtain ⟨rfl, rfl⟩ : aid0 = aid ∧ as0 = as := by simpa using ha
                exact hC _ _ hacc
      · have hacc : matchFontStep d acc e = acc := by
          simp [matchFontStep, hfm]
        refine ⟨?_, ?_, ?_⟩
        · rcases hA with h0 | ⟨f, hf, hff, hfs⟩
          · exact Or.inl (hacc ▸ h0)
          · exact Or.inr ⟨f, List.mem_cons_of_mem _ hf, hff, hfs⟩
        · intro e2 he2 hfam2
          rcases List.mem_cons.mp he2 with h2 | h2
          · exact absurd hfam2 (by rw [h2]; simp [hfm])
          · exact hB e2 h2 hfam2
        · intro aid as ha
          exact hC aid as (by rw [hacc, ha])

/-- C1 (amended): whenever match_font returns some id, the returned face
is a candidate — its family name matches some family of the descriptor
chain under case folding — and its score |Δweight| + 1000·[style ≠
requested] + |Δstretch| is minimal among the candidates of all families
of the chain pooled together.  The chain order plays no role, and ties
are resolved by the hash-map iteration order (modelled by the fonts list
order), not by face id. -/
theorem claim1_match_font_min_score (st : RegistryState)
    (d : FontDescriptor) (id : Nat) (h : matchFont st d = some id) :
    ∃ f, (id, f) ∈ st.fonts ∧ familyMatches d f = true ∧
      ∀ e ∈ st.fonts, familyMatches d e.2 = true →
        scoreFont d f ≤ scoreFont d e.2 := by
  unfold matchFont at h
  by_cases he : st.fonts.isEmpty
  · rw [if_pos he] at h
    exact absurd h (by simp)
  · rw [if_neg he] at h
    obtain ⟨p, hp, hid⟩ := Option.map_eq_some'.mp h
    obtain ⟨bid, bs⟩ := p
    simp only at hid
    subst hid
    obtain ⟨hA, hB, _⟩ := foldl_matchFontStep_spec d st.fonts none bid bs hp
    rcases hA with h0 | ⟨f, hf, hff, hfs⟩
    · exact absurd h0 (by simp)
    · exact ⟨f, hf, hff, fun e he2 hm => hfs ▸ hB e he2 hm⟩

/-- C1 (witness): the minimality property applied to the concrete
two-face registry, where match_font returns face 1. -/
theorem claim1_match_font_min_score_witness :
    ∃ f, (1, f) ∈ cstate.fonts ∧ familyMatches cdescr f = true ∧
      ∀ e ∈ cstate.fonts, familyMatches cdescr e.2 = true →
        scoreFont cdescr f ≤ scoreFont cdescr e.2 :=
  claim1_match_font_min_score cstate cdescr 1 (by decide)

/-- C2 (code evaluation at the failing input): OpenTypeFont::parse accepts
a container whose single directory entry has offset 100 and length 100
inside a 28-byte buffer — no bounds check is performed — and the
subsequent get_table dereference runs off the end of the container (the
inner none models the Rust slice panic).  The claim states that such a
parse must fail; it does not. -/
theorem claim2_parse_accepts_out_of_bounds_table :
    FontParser.OpenTypeFont.parse noWoff noWoff badFontBytes = .ok badFont ∧
    badFont.tables = [(0x68656164, ⟨0, 100, 100⟩)] ∧
    badFontBytes.length < 100 + 100 ∧
    badFont.get_table 0x68656164 = some none := by
  refine ⟨by with_unfolding_all rfl, by decide, by decide, by with_unfolding_all rfl⟩

set_option maxRecDepth 8000 in
/-- C3 (code evaluation at the failing input): the glyph-cache key built
by rasterize_glyph contains no face identity, so two calls with the same
glyph id, size and mode but different fonts share one cache entry: after
rasterizing glyph 7 of font A, the call for font B returns the bitmap of
font A from the cache, although the backend would produce a different
bitmap for font B.  The claim states different faces occupy distinct
entries; they do not. -/
theorem claim3_cache_key_ignores_face :
    (rasterizeGlyph crast glyphCache0 rfontA 7 16 .Gray).1 = .ok (mkBm [1]) ∧
    (rasterizeGlyph crast
        (rasterizeGlyph crast glyphCache0 rfontA 7 16 .Gray).2
        rfontB 7 16 .Gray).1 = .ok (mkBm [1]) ∧
    mkBm [1] ≠ mkBm [2] ∧ rfontA ≠ rfontB := by
  refine ⟨by with_unfolding_all rfl, by with_unfolding_all rfl, by decide, by decide⟩

/-- C4 (counterexample): putting a single 15-byte bitmap into a cache
with max_bytes = 10 leaves the bytes counter at 15, above the budget —
the eviction protocol empties the store and then admits the oversized
bitmap anyway.  The claim asserts bytes ≤ max_bytes even in this case. -/
theorem claim4_bytes_can_exceed_max_bytes :
    (putSeq (GlyphCache.new 10 10) [(bigKey, bigBm)]).memory_bytes = 15 ∧
    (putSeq (GlyphCache.new 10 10) [(bigKey, bigBm)]).max_memory_bytes = 10 ∧
    ¬ (putSeq (GlyphCache.new 10 10) [(bigKey, bigBm)]).memory_bytes ≤
        (putSeq (GlyphCache.new 10 10) [(bigKey, bigBm)]).max_memory_bytes := by
  exact ⟨by decide, by decide, by decide⟩

/-- Helper: sumData of the empty store. -/
theorem sumData_nil : sumData [] = 0 := rfl

/-- Helper: sumData on a cons. -/
theorem sumData_cons (e : CacheKey × GlyphBitmap)
    (l : List (CacheKey × GlyphBitmap)) :
    sumData (e :: l) = entrySize e + sumData l := by
  simp [sumData]

/-- Helper: sumData distributes over append. -/
theorem sumData_append (a b : List (CacheKey × GlyphBitmap)) :
    sumData (a ++ b) = sumData a + sumData b := by
  simp [sumData]

/-- Helper: findEntry unfolded on a cons. -/
theorem findEntry_cons (e : CacheKey × GlyphBitmap)
    (rest : List (CacheKey × GlyphBitmap)) (k : CacheKey) :
    findEntry (e :: rest) k
      = if e.1 = k then some e.2 else findEntry rest k := by
  by_cases he : e.1 = k <;> simp [findEntry, List.find?_cons, he]

/-- Helper: removing a found key shrinks the byte sum by exactly the
found bitmap size. -/
theorem sumData_removeKey :
    ∀ (l : List (CacheKey × GlyphBitmap)) (k : CacheKey) (v : GlyphBitmap),
      findEntry l k = some v →
      sumData (removeKey l k) + v.data.length = sumData l
  | [], k, v, h => by simp [findEntry] at h
  | e :: rest, k, v, h => by
      rw [findEntry_cons] at h
      by_cases he : e.1 = k
      · rw [if_pos he] at h
        obtain rfl : e.2 = v := by simpa using h
        rw [show removeKey (e :: rest) k = rest from by
          simp [removeKey, he]]
        rw [sumData_cons]
        simp [entrySize]
        omega
      · rw [if_neg he] at h
        rw [show removeKey (e :: rest) k = e :: removeKey rest k from by
          simp [removeKey, he]]
        rw [sumData_cons, sumData_cons]
        have := sumData_removeKey rest k v h
        omega

/-- Helper: removing a found key shrinks the length by one. -/
theorem length_removeKey :
    ∀ (l : List (CacheKey × GlyphBitmap)) (k : CacheKey) (v : GlyphBitmap),
      findEntry l k = some v →
      (removeKey l k).length + 1 = l.length
  | [], k, v, h => by simp [findEntry] at h
  | e :: rest, k, v, h => by
      rw [findEntry_cons] at h
      by_cases he : e.1 = k
      · rw [show removeKey (e :: rest) k = rest from by
          simp [removeKey, he]]
        simp
      · rw [if_neg he] at h
        rw [show removeKey (e :: rest) k = e :: removeKey rest k from by
          simp [removeKey, he]]
        have := length_removeKey rest k v h
        simp only [List.length_cons]
        omega

/-- Helper: the eviction loop keeps the bytes-equals-sum invariant. -/
theorem evictLoop_sum (target : Nat) :
    ∀ (l : List (CacheKey × GlyphBitmap)) (mem ev : Nat),
      mem = sumData l →
      (evictLoop target l mem ev).2.1 = sumData (evictLoop target l mem ev).1
  | [], mem, ev, h => by
      simpa [evictLoop, sumData] using h
  | e :: rest, mem, ev, h => by
      unfold evictLoop
      split_ifs with hgt
      · exact evictLoop_sum target rest _ _ (by rw [h, sumData_cons]; omega)
      · exact h

/-- Helper: under the sum invariant, the eviction loop always reaches the
byte target (an empty store has zero bytes). -/
theorem evictLoop_le (target : Nat) :
    ∀ (l : List (CacheKey × GlyphBitmap)) (mem ev : Nat),
      mem = sumData l →
      (evictLoop target l mem ev).2.1 ≤ target
  | [], mem, ev, h => by
      simp only [evictLoop]
      simp [sumData] at h
      omega
  | e :: rest, mem, ev, h => by
      unfold evictLoop
      split_ifs with hgt
      · exact evictLoop_le target rest _ _ (by rw [h, sumData_cons]; omega)
      · simpa using Nat.le_of_not_lt hgt

/-- Helper: the eviction loop never grows the store. -/
theorem evictLoop_length (target : Nat) :
    ∀ (l : List (CacheKey × GlyphBitmap)) (mem ev : Nat),
      (evictLoop target l mem ev).1.length ≤ l.length
  | [], _, _ => by simp [evictLoop]
  | e :: rest, mem, ev => by
      unfold evictLoop
      split_ifs with hgt
      · exact le_trans (evictLoop_length target rest _ _) (by simp)
      · simp

/-- Helper: byte-sum invariant of evict_to_fit. -/
theorem evictToFit_sum (c : GlyphCache) (b : Nat)
    (h : c.memory_bytes = sumData c.entries) :
    (evictToFit c b).memory_bytes = sumData (evictToFit c b).entries :=
  evictLoop_sum _ _ _ _ h

/-- Helper: evict_to_fit reaches its byte target under the sum
invariant. -/
theorem evictToFit_le (c : GlyphCache) (b : Nat)
    (h : c.memory_bytes = sumData c.entries) :
    (evictToFit c b).memory_bytes ≤ c.max_memory_bytes - b :=
  evictLoop_le _ _ _ _ h

/-- Helper: evict_to_fit never grows the store. -/
theorem evictToFit_length (c : GlyphCache) (b : Nat) :
    (evictToFit c b).entries.length ≤ c.entries.length :=
  evictLoop_length _ _ _ _

/-- Helper: the push-and-account tail of GlyphCache::insert, split out
so the two stages of the source function can be reasoned about
separately; cacheInsert_eq identifies the composition with the source
embedding definitionally. -/
def insertStage (c1 : GlyphCache) (k : CacheKey) (v : GlyphBitmap) :
    GlyphCache :=
  let b := v.data.length
  let pushed := lruPush c1 k v
  let c2 :=
    match pushed.1 with
    | some e =>
        { pushed.2 with
            memory_bytes := pushed.2.memory_bytes - entrySize e
            evictions := pushed.2.evictions + 1 }
    | none => pushed.2
  { c2 with memory_bytes := c2.memory_bytes + b }

/-- Helper: GlyphCache::insert is the eviction stage followed by the push
stage. -/
theorem cacheInsert_eq (c : GlyphCache) (k : CacheKey) (v : GlyphBitmap) :
    cacheInsert c k v
      = insertStage
          (if c.memory_bytes + v.data.length > c.max_memory_bytes
           then evictToFit c v.data.length else c) k v := rfl

/-- Helper: evaluation of the push stage when the key is resident. -/
theorem insertStage_found (c1 : GlyphCache) (k : CacheKey)
    (v old : GlyphBitmap) (hf : findEntry c1.entries k = some old) :
    insertStage c1 k v
      = { c1 with
            entries := removeKey c1.entries k ++ [(k, v)]
            memory_bytes :=
              c1.memory_bytes - old.data.length + v.data.length
            evictions := c1.evictions + 1 } := by
  simp only [insertStage, lruPush, hf, entrySize]

/-- Helper: evaluation of the push stage on a fresh key with room. -/
theorem insertStage_roomy (c1 : GlyphCache) (k : CacheKey)
    (v : GlyphBitmap) (hf : findEntry c1.entries k = none)
    (hcap : ¬ c1.entries.length = c1.max_entries) :
    insertStage c1 k v
      = { c1 with
            entries := c1.entries ++ [(k, v)]
            memory_bytes := c1.memory_bytes + v.data.length } := by
  simp only [insertStage, lruPush, hf, if_neg hcap]

/-- Helper: evaluation of the push stage on a fresh key at capacity with
a non-empty store: the LRU head is evicted. -/
theorem insertStage_evict (c1 : GlyphCache) (k : CacheKey)
    (v : GlyphBitmap) (e : CacheKey × GlyphBitmap)
    (rest : List (CacheKey × GlyphBitmap))
    (hf : findEntry c1.entries k = none)
    (hcap : c1.entries.length = c1.max_entries)
    (hl : c1.entries = e :: rest) :
    insertStage c1 k v
      = { c1 with
            entries := rest ++ [(k, v)]
            memory_bytes :=
              c1.memory_bytes - entrySize e + v.data.length
            evictions := c1.evictions + 1 } := by
  unfold insertStage lruPush
  rw [hf]
  dsimp only
  rw [if_pos hcap, hl]

/-- Helper: evaluation of the push stage on a fresh key at capacity with
an empty store (only possible for capacity zero). -/
theorem insertStage_empty (c1 : GlyphCache) (k : CacheKey)
    (v : GlyphBitmap) (hf : findEntry c1.entries k = none)
    (hcap : c1.entries.length = c1.max_entries)
    (hl : c1.entries = []) :
    insertStage c1 k v
      = { c1 with
            entries := [(k, v)]
            memory_bytes := c1.memory_bytes + v.data.length } := by
  unfold insertStage lruPush
  rw [hf]
  dsimp only
  rw [if_pos hcap, hl]

/-- Helper: invariants of the push stage: bytes equals sum, entry count
within max_entries, bounds untouched, and the bytes counter grows by at
most the new bitmap size. -/
theorem insertStage_inv (c1 : GlyphCache) (k : CacheKey) (v : GlyphBitmap)
    (hsum : c1.memory_bytes = sumData c1.entries)
    (hlen : c1.entries.length ≤ c1.max_entries)
    (hmax : 0 < c1.max_entries) :
    (insertStage c1 k v).memory_bytes
        = sumData (insertStage c1 k v).entries ∧
    (insertStage c1 k v).entries.length ≤ c1.max_entries ∧
    (insertStage c1 k v).max_entries = c1.max_entries ∧
    (insertStage c1 k v).max_memory_bytes = c1.max_memory_bytes ∧
    (insertStage c1 k v).memory_bytes ≤ c1.memory_bytes + v.data.length := by
  cases hf : findEntry c1.entries k with
  | some old =>
      have hrm := sumData_removeKey c1.entries k old hf
      have hrl := length_removeKey c1.entries k old hf
      rw [insertStage_found c1 k v old hf]
      refine ⟨?_, ?_, rfl, rfl, ?_⟩
      · simp only [sumData_append, sumData_cons, sumData_nil, entrySize]
        omega
      · simp only [List.length_append, List.length_cons, List.length_nil]
        omega
      · simp only
        omega
  | none =>
      by_cases hcap : c1.entries.length = c1.max_entries
      · cases hl : c1.entries with
        | nil =>
            rw [hl, sumData_nil] at hsum
            rw [insertStage_empty c1 k v hf hcap hl]
            refine ⟨?_, ?_, rfl, rfl, ?_⟩
            · simp only [sumData_cons, sumData_nil, entrySize]
              omega
            · simp only [List.length_cons, List.length_nil]
              omega
            · simp only
              omega
        | cons e rest =>
            have hsum2 := hsum
            rw [hl, sumData_cons] at hsum2
            simp only [entrySize] at hsum2
            rw [insertStage_evict c1 k v e rest hf hcap hl]
            refine ⟨?_, ?_, rfl, rfl, ?_⟩
            · simp only [sumData_append, sumData_cons, sumData_nil,
                entrySize]
              omega
            · simp only [List.length_append, List.length_cons,
                List.length_nil]
              have hlen2 := hcap
              rw [hl] at hlen2
              simp only [List.length_cons] at hlen2
              omega
            · simp only
              omega
      · rw [insertStage_roomy c1 k v hf hcap]
        refine ⟨?_, ?_, rfl, rfl, ?_⟩
        · simp only [sumData_append, sumData_cons, sumData_nil, entrySize]
          omega
        · simp only [List.length_append, List.length_cons, List.length_nil]
          omega
        · simp only
          omega

/-- Helper: one insert preserves the cache invariants: bytes equals the
sum of resident sizes, the entry count stays within max_entries, the
bounds fields are untouched, and a bitmap within the byte budget leaves
the bytes counter within the budget. -/
theorem cacheInsert_inv (c : GlyphCache) (k : CacheKey) (v : GlyphBitmap)
    (hsum : c.memory_bytes = sumData c.entries)
    (hlen : c.entries.length ≤ c.max_entries)
    (hmax : 0 < c.max_entries) :
    (cacheInsert c k v).memory_bytes = sumData (cacheInsert c k v).entries ∧
    (cacheInsert c k v).entries.length ≤ c.max_entries ∧
    (cacheInsert c k v).max_entries = c.max_entries ∧
    (cacheInsert c k v).max_memory_bytes = c.max_memory_bytes ∧
    (v.data.length ≤ c.max_memory_bytes →
      (cacheInsert c k v).memory_bytes ≤ c.max_memory_bytes) := by
  rw [cacheInsert_eq]
  by_cases ht : c.memory_bytes + v.data.length > c.max_memory_bytes
  · rw [if_pos ht]
    obtain ⟨s1, s2, s3, s4, s5⟩ := insertStage_inv (evictToFit c v.data.length)
      k v (evictToFit_sum c v.data.length hsum)
      (le_trans (evictToFit_length c v.data.length) hlen)
      hmax
    refine ⟨s1, le_trans s2 ?_, s3, s4, ?_⟩
    · exact le_refl _
    · intro hbB
      have hle := evictToFit_le c v.data.length hsum
      omega
  · rw [if_neg ht]
    obtain ⟨s1, s2, s3, s4, s5⟩ := insertStage_inv c k v hsum hlen hmax
    exact ⟨s1, s2, s3, s4, fun _ => by omega⟩

/-- Helper: the invariants iterate over any sequence of puts. -/
theorem putSeq_inv :
    ∀ (puts : List (CacheKey × GlyphBitmap)) (c : GlyphCache),
      c.memory_bytes = sumData c.entries →
      c.entries.length ≤ c.max_entries →
      0 < c.max_entries →
      (putSeq c puts).memory_bytes = sumData (putSeq c puts).entries ∧
      (putSeq c puts).entries.length ≤ c.max_entries ∧
      (putSeq c puts).max_entries = c.max_entries ∧
      (putSeq c puts).max_memory_bytes = c.max_memory_bytes ∧
      ((∀ e ∈ puts, e.2.data.length ≤ c.max_memory_bytes) →
        c.memory_bytes ≤ c.max_memory_bytes →
        (putSeq c puts).memory_bytes ≤ c.max_memory_bytes)
  | [], c, hsum, hlen, hmax =>
      ⟨hsum, hlen, rfl, rfl, fun _ hb => hb⟩
  | (k, v) :: puts, c, hsum, hlen, hmax => by
      obtain ⟨h1, h2, h3, h4, h5⟩ := cacheInsert_inv c k v hsum hlen hmax
      have ih := putSeq_inv puts (cacheInsert c k v) h1
        (by rw [h3]; exact h2) (by rw [h3]; exact hmax)
      obtain ⟨i1, i2, i3, i4, i5⟩ := ih
      have hps : putSeq c ((k, v) :: puts)
          = putSeq (cacheInsert c k v) puts := rfl
      rw [hps]
      refine ⟨i1, h3 ▸ i2, i3.trans h3, i4.trans h4, ?_⟩
      intro hall hcb
      have hv : v.data.length ≤ c.max_memory_bytes := hall (k, v) (by simp)
      have htail : ∀ e ∈ puts,
          e.2.data.length ≤ (cacheInsert c k v).max_memory_bytes := by
        intro e he
        rw [h4]
        exact hall e (List.mem_cons_of_mem _ he)
      have hmem : (cacheInsert c k v).memory_bytes
          ≤ (cacheInsert c k v).max_memory_bytes := by
        rw [h4]
        exact h5 hv
      have := i5 htail hmem
      rw [h4] at this
      exact this

/-- C4 (amended): after any sequence of puts into a fresh glyph cache
with positive max_entries, the bytes counter equals the sum of
data.len() over resident entries and the entry count is at most
max_entries; and provided every inserted bitmap individually fits the
byte budget (data.len() ≤ max_bytes), the bytes counter is at most
max_bytes.  The unconditional bound of the original claim fails: one
oversized bitmap is still resident after the store is emptied, leaving
the counter above the budget. -/
theorem claim4_cache_invariants (maxE maxB : Nat) (hE : 0 < maxE)
    (puts : List (CacheKey × GlyphBitmap)) :
    (putSeq (GlyphCache.new maxE maxB) puts).memory_bytes
        = sumData (putSeq (GlyphCache.new maxE maxB) puts).entries ∧
    (putSeq (GlyphCache.new maxE maxB) puts).entries.length ≤ maxE ∧
    ((∀ e ∈ puts, e.2.data.length ≤ maxB) →
      (putSeq (GlyphCache.new maxE maxB) puts).memory_bytes ≤ maxB) := by
  obtain ⟨h1, h2, _, _, h5⟩ := putSeq_inv puts (GlyphCache.new maxE maxB)
    (by simp [GlyphCache.new, sumData]) (by simp [GlyphCache.new]) hE
  exact ⟨h1, h2, fun hall => h5 hall (by simp [GlyphCache.new])⟩

/-- C4 (witness): the amended invariants applied to two 15-byte bitmaps
put into a cache bounded by 2 entries and 100 bytes. -/
theorem claim4_cache_invariants_witness :
    (putSeq (GlyphCache.new 2 100) [(bigKey, bigBm)]).memory_bytes
        = sumData (putSeq (GlyphCache.new 2 100) [(bigKey, bigBm)]).entries ∧
    (putSeq (GlyphCache.new 2 100) [(bigKey, bigBm)]).entries.length ≤ 2 ∧
    ((∀ e ∈ [(bigKey, bigBm)], e.2.data.length ≤ 100) →
      (putSeq (GlyphCache.new 2 100) [(bigKey, bigBm)]).memory_bytes ≤ 100) :=
  claim4_cache_invariants 2 100 (by decide) [(bigKey, bigBm)]

/-- C5 (code evaluation at the failing input): with two advance-10 glyphs,
max_width 100 (no width pressure) and a single optional (required = false)
break at byte index 1, break_into_lines emits a line boundary at index 1:
the result is two one-glyph lines.  The claim (and the source comment at
the call site, which says mandatory break) requires that an optional break
alone never ends the line at this step — but should_break_here with
require_optional = false accepts any break. -/
theorem claim5_optional_break_ends_line :
    (breakIntoLines 2 cshaped [⟨1, false⟩] 100).map
        (fun l => (l.glyphs.length, l.text_range)) = [(1, (0, 1)), (1, (1, 2))] ∧
    ([⟨1, false⟩] : List TextLayout.LineBreak).all (fun b => !b.required) = true := by
  refine ⟨by with_unfolding_all rfl, by decide⟩

/-- Helper: sumGlyphs distributes over append. -/
theorem sumGlyphs_append (a b : List LayoutLine) :
    sumGlyphs (a ++ b) = sumGlyphs a + sumGlyphs b := by
  simp [sumGlyphs]

/-- Helper: sumGlyphs on a cons. -/
theorem sumGlyphs_cons (a : LayoutLine) (l : List LayoutLine) :
    sumGlyphs (a :: l) = a.glyphs.length + sumGlyphs l := by
  simp [sumGlyphs]

/-- Helper: each step of the greedy line-breaking loop accounts for
exactly one more glyph: emitted lines plus the running buffer grow by one
glyph per processed glyph. -/
theorem breakStep_measure (breaks : List TextLayout.LineBreak)
    (mw h b : Rat) (st : BreakState) (g : PositionedGlyph) :
    sumGlyphs (breakStep breaks mw h b st g).lines
        + (breakStep breaks mw h b st g).cur.length
      = sumGlyphs st.lines + st.cur.length + 1 := by
  unfold breakStep
  dsimp only
  split_ifs <;>
    simp [sumGlyphs_append, sumGlyphs_cons, sumGlyphs] <;> omega

/-- Helper: the fold of breakStep over a glyph list accounts for every
glyph. -/
theorem foldl_breakStep_measure (breaks : List TextLayout.LineBreak)
    (mw h b : Rat) (gs : List PositionedGlyph) :
    ∀ st : BreakState,
      sumGlyphs (gs.foldl (breakStep breaks mw h b) st).lines
          + (gs.foldl (breakStep breaks mw h b) st).cur.length
        = sumGlyphs st.lines + st.cur.length + gs.length := by
  induction gs with
  | nil => intro st; simp
  | cons g gs ih =>
      intro st
      simp only [List.foldl_cons, List.length_cons]
      rw [ih, breakStep_measure]
      omega

/-- Helper: break_into_lines preserves the total glyph count. -/
theorem breakIntoLines_count (textLen : Nat) (shaped : ShapedText)
    (breaks : List TextLayout.LineBreak) (mw : Rat) :
    sumGlyphs (breakIntoLines textLen shaped breaks mw)
      = shaped.glyphs.length := by
  unfold breakIntoLines
  by_cases hg : shaped.glyphs = []
  · simp [hg, sumGlyphs]
  · rw [if_neg hg]
    dsimp only
    have hm := foldl_breakStep_measure breaks mw shaped.height
      shaped.baseline shaped.glyphs ⟨[], [], 0, 0, 0⟩
    simp only [sumGlyphs, List.map_nil, List.sum_nil, List.length_nil] at hm
    by_cases hc :
        (shaped.glyphs.foldl
          (breakStep breaks mw shaped.height shaped.baseline)
          ⟨[], [], 0, 0, 0⟩).cur = []
    · rw [if_neg (by simp [hc])]
      simp only [List.append_nil]
      rw [hc] at hm
      simpa [sumGlyphs] using hm
    · rw [if_pos hc]
      rw [sumGlyphs_append, sumGlyphs_cons]
      simp only [sumGlyphs, List.map_nil, List.sum_nil]
      omega

/-- Helper: the adjustment loop of distribute_space keeps the glyph list
length. -/
theorem adjustLoop_length (spg : Rat) :
    ∀ (gs : List PositionedGlyph) (cum : Rat) (inGap : Bool),
      (adjustLoop spg gs cum inGap).length = gs.length
  | [], _, _ => rfl
  | g :: rest, cum, inGap => by
      unfold adjustLoop
      split_ifs <;> simp [adjustLoop_length spg rest]

/-- Helper: justify_line keeps the glyph count of the line. -/
theorem justifyLine_glyphs_length (l : LayoutLine) (t : Rat)
    (mode : JustificationMode) :
    (justifyLine l t mode).glyphs.length = l.glyphs.length := by
  cases mode <;> simp only [justifyLine]
  case Justify =>
    unfold distributeSpace
    dsimp only
    split_ifs <;> simp [adjustLoop_length]

/-- Helper: the justify loop keeps the total glyph count. -/
theorem justifyLoop_sumGlyphs (t : Rat) (mode : JustificationMode)
    (n : Nat) :
    ∀ (lines : List LayoutLine) (i : Nat),
      sumGlyphs (justifyLoop t mode n i lines) = sumGlyphs lines
  | [], _ => rfl
  | l :: rest, i => by
      have ih := justifyLoop_sumGlyphs t mode n rest (i + 1)
      rw [show justifyLoop t mode n i (l :: rest)
            = (if i < n then justifyLine l t mode else l)
              :: justifyLoop t mode n (i + 1) rest from rfl]
      rw [sumGlyphs_cons, sumGlyphs_cons, ih]
      split_ifs <;> simp [justifyLine_glyphs_length]

/-- Helper: setLastX0 keeps the total glyph count. -/
theorem setLastX0_sumGlyphs :
    ∀ lines : List LayoutLine, sumGlyphs (setLastX0 lines) = sumGlyphs lines
  | [] => rfl
  | [l] => by simp [setLastX0, sumGlyphs]
  | a :: b :: ls => by
      have ih := setLastX0_sumGlyphs (b :: ls)
      rw [show setLastX0 (a :: b :: ls) = a :: setLastX0 (b :: ls) from rfl,
        sumGlyphs_cons, sumGlyphs_cons, ih]

/-- Helper: justify_lines keeps the total glyph count. -/
theorem justifyLines_sumGlyphs (lines : List LayoutLine) (t : Rat)
    (mode : JustificationMode) :
    sumGlyphs (justifyLines lines t mode) = sumGlyphs lines := by
  unfold justifyLines
  split_ifs <;>
    simp [justifyLoop_sumGlyphs, setLastX0_sumGlyphs]

/-- Helper: vertical positioning keeps the total glyph count. -/
theorem positionLoop_sumGlyphs (spacing : Rat) :
    ∀ (lines : List LayoutLine) (y : Rat),
      sumGlyphs (positionLoop spacing lines y) = sumGlyphs lines
  | [], _ => rfl
  | l :: rest, y => by
      rw [show positionLoop spacing (l :: rest) y
            = { l with y_offset := y }
              :: positionLoop spacing rest (y + l.height * spacing) from rfl,
        sumGlyphs_cons, sumGlyphs_cons,
        positionLoop_sumGlyphs spacing rest]

/-- C6 (confirmed): whenever layout_paragraph succeeds, the sum of the
glyph counts over the lines of the returned LayoutResult equals the glyph
count of the input ShapedText — line breaking, justification and vertical
positioning neither drop nor duplicate glyphs.  Quantified over every
break list the external UAX-14 line breaker may produce. -/
theorem claim6_layout_preserves_glyph_count
    (breaks : List TextLayout.LineBreak) (text : List Char)
    (shaped : ShapedText) (options : LayoutOptions) (res : LayoutResult)
    (h : layoutParagraph breaks text shaped options = .ok res) :
    sumGlyphs res.lines = shaped.glyphs.length := by
  unfold layoutParagraph at h
  split_ifs at h
  · dsimp only at h
    rw [Except.ok.injEq] at h
    subst h
    dsimp only
    rw [positionLoop_sumGlyphs, justifyLines_sumGlyphs,
      breakIntoLines_count]

/-- Layout options fixture for the C6 witness. -/
def copts : LayoutOptions := ⟨100, none, .Left, 1, .LeftToRight⟩

/-- The layout result that the C6 witness input produces. -/
def claim6res : LayoutResult :=
  ⟨[⟨[gAdv10], 10, 20, 15, 0, 0, (0, 1)⟩,
    ⟨[gAdv10], 10, 20, 15, 0, 20, (1, 2)⟩], 40, 10, false⟩

/-- C6 (witness): the preservation theorem applied to a concrete
two-glyph paragraph that succeeds and splits into two lines. -/
theorem claim6_layout_preserves_glyph_count_witness :
    sumGlyphs claim6res.lines = cshaped.glyphs.length :=
  claim6_layout_preserves_glyph_count [⟨1, false⟩, ⟨2, true⟩]
    ['h', 'i'] cshaped copts claim6res (by with_unfolding_all rfl)

/-- Helper: justifyLoop with a bound covering the whole list justifies
every element. -/
theorem justifyLoop_map_all (t : Rat) (mode : JustificationMode) :
    ∀ (lines : List LayoutLine) (i n : Nat), i + lines.length ≤ n →
      justifyLoop t mode n i lines = lines.map fun l => justifyLine l t mode
  | [], _, _, _ => rfl
  | l :: rest, i, n, h => by
      have hi : i < n := by
        simp only [List.length_cons] at h
        omega
      simp only [justifyLoop, List.map_cons, if_pos hi]
      exact congrArg _ (justifyLoop_map_all t mode rest (i + 1) n (by
        simp only [List.length_cons] at h
        omega))

/-- Helper: justifyLoop with a bound one short of the list end justifies
all but the last element and leaves the last untouched. -/
theorem justifyLoop_last_untouched (t : Rat) (mode : JustificationMode) :
    ∀ (lines : List LayoutLine) (i n : Nat), i + lines.length = n + 1 →
      justifyLoop t mode n i lines =
        (lines.dropLast.map fun l => justifyLine l t mode)
          ++ lines.getLast?.toList
  | [], i, n, h => by simp [justifyLoop]
  | [l], i, n, h => by
      have hi : ¬ i < n := by
        simp only [List.length_cons, List.length_nil] at h
        omega
      simp [justifyLoop, if_neg hi]
  | l :: l2 :: rest, i, n, h => by
      have hi : i < n := by
        simp only [List.length_cons] at h
        omega
      have ih := justifyLoop_last_untouched t mode (l2 :: rest) (i + 1) n (by
        simp only [List.length_cons] at h ⊢
        omega)
      have step : justifyLoop t mode n i (l :: l2 :: rest)
          = (if i < n then justifyLine l t mode else l)
            :: justifyLoop t mode n (i + 1) (l2 :: rest) := rfl
      rw [step, if_pos hi, ih]
      simp [List.dropLast_cons₂, List.getLast?_cons_cons]

/-- Helper: setLastX0 on a list ending in l zeroes the x_offset of l and
leaves the prefix alone. -/
theorem setLastX0_concat :
    ∀ (ls : List LayoutLine) (l : LayoutLine),
      setLastX0 (ls ++ [l]) = ls ++ [{ l with x_offset := 0 }]
  | [], l => rfl
  | [a], l => rfl
  | a :: b :: ls, l => by
      have ih := setLastX0_concat (b :: ls) l
      simp only [List.cons_append] at ih ⊢
      rw [show setLastX0 (a :: b :: (ls ++ [l]))
            = a :: setLastX0 (b :: (ls ++ [l])) from rfl, ih]

/-- C7 (confirmed): justify_lines in Justify (Full) mode returns the last
line equal to its input with x_offset set to 0 — in particular its width
(and glyphs) are unchanged from their pre-justification values — applies
the per-line Justify transformation (distribute_space) exactly to the
lines before the last, and under every other mode applies the per-line
transformation uniformly to all lines. -/
theorem claim7_full_justify_last_line (lines : List LayoutLine) (t : Rat)
    (h : lines ≠ []) :
    (justifyLines lines t .Justify).getLast? =
      (lines.getLast?).map (fun l => { l with x_offset := 0 }) ∧
    (justifyLines lines t .Justify).dropLast =
      lines.dropLast.map (fun l => justifyLine l t .Justify) ∧
    ∀ mode, mode ≠ JustificationMode.Justify →
      justifyLines lines t mode = lines.map fun l => justifyLine l t mode := by
  obtain ⟨last, hlast⟩ : ∃ a, lines.getLast? = some a :=
    Option.isSome_iff_exists.mp (List.getLast?_isSome.mpr h)
  obtain ⟨front, hfront⟩ : ∃ front, lines = front ++ [last] := by
    refine ⟨lines.dropLast, ?_⟩
    exact (List.dropLast_append_getLast? last hlast).symm
  have hlen : lines.length = front.length + 1 := by
    rw [hfront]; simp
  have hloop := justifyLoop_last_untouched t .Justify lines 0
    (lines.length - 1) (by omega)
  refine ⟨?_, ?_, ?_⟩
  · rw [justifyLines, if_neg h, if_pos rfl, if_pos rfl, hloop, hfront]
    simp only [List.dropLast_concat, List.getLast?_concat, Option.toList_some]
    rw [setLastX0_concat]
    simp [hfront, List.getLast?_concat]
  · rw [justifyLines, if_neg h, if_pos rfl, if_pos rfl, hloop, hfront]
    simp only [List.dropLast_concat, List.getLast?_concat, Option.toList_some]
    rw [setLastX0_concat]
    simp [List.dropLast_concat]
  · intro mode hm
    rw [justifyLines, if_neg h, if_neg hm, if_neg hm]
    exact justifyLoop_map_all t mode lines 0 lines.length (by omega)

/-- Lines fixture for the C7 witness. -/
def cline (w : Rat) : LayoutLine := ⟨[gAdv10, gAdv10], w, 20, 15, 5, 0, (0, 2)⟩

/-- C7 (witness): the last-line rule applied to the concrete two-line list
of widths 70 and 90 with target 100. -/
theorem claim7_full_justify_last_line_witness :
    (justifyLines [cline 70, cline 90] 100 .Justify).getLast? =
      (([cline 70, cline 90] : List LayoutLine).getLast?).map
        (fun l => { l with x_offset := 0 }) ∧
    (justifyLines [cline 70, cline 90] 100 .Justify).dropLast =
      ([cline 70, cline 90] : List LayoutLine).dropLast.map
        (fun l => justifyLine l 100 .Justify) ∧
    ∀ mode, mode ≠ JustificationMode.Justify →
      justifyLines [cline 70, cline 90] 100 mode =
        ([cline 70, cline 90] : List LayoutLine).map
          fun l => justifyLine l 100 mode :=
  claim7_full_justify_last_line [cline 70, cline 90] 100
    (List.cons_ne_nil _ _)

/-- C8 (confirmed): shape_text on empty text returns Ok with an empty
ShapedText of zero width, height and baseline, and returns the shaping
cache exactly as it was — the empty-input return precedes every cache
access, so contents, hits and misses are all unchanged.  Quantified over
the external HarfBuzz backend, the options hasher, the registry, the
cache state, and all of font id, size and options. -/
theorem claim8_shape_empty_text
    (optsHash : ShapingOptions → Nat)
    (hbShape : List Nat → List Char → ShapingOptions → Rat → List HbGlyph)
    (registry : RegistryState) (cache : Option ShapingCache)
    (fontId : Nat) (size : Rat) (opts : ShapingOptions) :
    shapeText optsHash hbShape registry cache [] fontId size opts
      = (.ok ⟨[], 0, 0, 0⟩, cache) := by
  rfl

/-- C9 (counterexample): an fvar table with version 2.0 (and an avar table
likewise) is rejected, but with the CorruptedData kind, not the
UnsupportedVersion kind the claim names. -/
theorem claim9_version_error_kind_counterexample :
    FontParser.FvarTable.parse [0, 2, 0, 0] = .error .CorruptedData ∧
    FontParser.AvarTable.parse [0, 2, 0, 0] 0 = .error .CorruptedData ∧
    FontParser.ParseError.CorruptedData ≠ FontParser.ParseError.UnsupportedVersion := by
  refine ⟨by with_unfolding_all rfl, by with_unfolding_all rfl, by decide⟩

/-- C9 (amended): for every fvar or avar table whose decoded version field
is not 1.0, the decoder fails, and the error kind is CorruptedData. -/
theorem claim9_bad_version_fails_corrupted
    (data : List Nat) (axisCount major minor : Nat)
    (h1 : readBE data 0 2 = some major) (h2 : readBE data 2 2 = some minor)
    (h3 : ¬ (major = 1 ∧ minor = 0)) :
    FontParser.FvarTable.parse data = .error .CorruptedData ∧
    FontParser.AvarTable.parse data axisCount = .error .CorruptedData := by
  constructor
  · simp only [FontParser.FvarTable.parse, h1, h2]
    rw [if_neg h3]
  · simp only [FontParser.AvarTable.parse, h1, h2]
    rw [if_neg h3]

/-- C9 (witness): the amended theorem applied to the concrete version-2.0
table bytes. -/
theorem claim9_bad_version_fails_corrupted_witness :
    FontParser.FvarTable.parse [0, 2, 0, 0] = .error .CorruptedData ∧
    FontParser.AvarTable.parse [0, 2, 0, 0] 3 = .error .CorruptedData :=
  claim9_bad_version_fails_corrupted [0, 2, 0, 0] 3 2 0 (by with_unfolding_all rfl)
    (by with_unfolding_all rfl) (by decide)

/-- C10 (confirmed): load_font_data is atomic on error — whenever it
returns an error (empty data, or a parse failure of the external
ttf-parser front end), the registry state is returned unchanged: same
font map (hence same font_count) and same next_id, so a failed load never
consumes a face id. -/
theorem claim10_load_font_data_atomic_on_error
    (ttfParse : List Nat → Option TtfFaceInfo) (st : RegistryState)
    (data : List Nat) (e : RegistryError)
    (h : (loadFontData ttfParse st data).1 = .error e) :
    (loadFontData ttfParse st data).2 = st := by
  by_cases hd : data = []
  · simp [loadFontData, hd]
  · cases hp : ttfParse data with
    | none => simp [loadFontData, hd, hp]
    | some f =>
        exfalso
        simp [loadFontData, hd, hp] at h

/-- C10 (witness): the atomicity theorem applied to a registry of next_id
5 and an empty data buffer, which fails with InvalidFont. -/
theorem claim10_load_font_data_atomic_on_error_witness :
    (loadFontData (fun _ => none) ⟨[], 5⟩ []).2 = (⟨[], 5⟩ : RegistryState) :=
  claim10_load_font_data_atomic_on_error (fun _ => none) ⟨[], 5⟩ []
    .InvalidFont (by with_unfolding_all rfl)

end Corten
